import Mathlib

/-!
Shallow embedding of the document retrieval core of `merci2/mistral11`
(`backend/src/services/vectorStoreService.ts`).  The repository carries two
revisions of that file; namespace `V1` embeds the first (current) revision —
adaptive search threshold, minimum chunk length in the PDF path, guarded
cosine similarity — and namespace `V2` embeds the second (legacy) revision's
cosine similarity, which lacks the dimension/zero guard.

Modelling conventions:
* JavaScript floating point numbers are modelled as real numbers `ℝ`;
  `Math.sqrt` is `Real.sqrt`.
* JS strings are Lean `String`s; `String.length` models `.length`
  (both count one unit per character for the texts considered here).
* The network embedding call (`getEmbedding`) is effectful; store operations
  take the embedding function as an explicit parameter `embed`, and
  `Date.now()` / ISO dates are passed in as the parameters `now` / `uploadDate`.
* Methods that throw are modelled with `Except String` (or return the pair of
  the resulting state and an `Except` result when the claim is about the
  state after a failed call).
-/

/-- JS whitespace class `\s` restricted to the ASCII whitespace characters
that occur in the repository's inputs. -/
def isWsChar (c : Char) : Bool :=
  c == ' ' || c == '\t' || c == '\n' || c == '\r'

/-- Terminal punctuation recognised by the sentence regex `[^.!?]+[.!?]+`. -/
def isPunctChar (c : Char) : Bool :=
  c == '.' || c == '!' || c == '?'

/-- Second phase of `text.replace(/\s+/g, ' ')`: collapse adjacent spaces
(after every whitespace character has been mapped to `' '`). -/
def squeezeSpaces : List Char → List Char
  | [] => []
  | [c] => [c]
  | c :: d :: t =>
    if c == ' ' && d == ' ' then squeezeSpaces (d :: t)
    else c :: squeezeSpaces (d :: t)

/-- `text.replace(/\s+/g, ' ')`: every maximal whitespace run becomes one
space. -/
def collapseWs (l : List Char) : List Char :=
  squeezeSpaces (l.map fun c => if isWsChar c then ' ' else c)

/-- `String.prototype.trim` on a character list: strip leading and trailing
whitespace. -/
def trimChars (l : List Char) : List Char :=
  List.rdropWhile isWsChar (List.dropWhile isWsChar l)

/-- `String.prototype.trim`. -/
def trimStr (s : String) : String :=
  ⟨trimChars s.data⟩

/-- `text.replace(/\s+/g, ' ').trim()` — the normalisation step of the
chunker. -/
def cleanText (s : String) : String :=
  ⟨trimChars (collapseWs s.data)⟩

/-- Scanner for the global regex match `/[^.!?]+[.!?]+/g`: `acc` is the
candidate match built so far, `inPunct` records whether its terminal
punctuation run has started.  Unmatched trailing text (no terminal
punctuation) is dropped, exactly as `String.match` drops it. -/
def sentenceScan (acc : List Char) (inPunct : Bool) : List Char → List (List Char)
  | [] => if inPunct then [acc] else []
  | c :: cs =>
    if isPunctChar c then
      if acc = [] then sentenceScan [] false cs
      else sentenceScan (acc ++ [c]) true cs
    else
      if inPunct then acc :: sentenceScan [c] false cs
      else sentenceScan (acc ++ [c]) false cs

/-- `cleanedText.match(/[^.!?]+[.!?]+/g) || [cleanedText]`: the sentence-like
units of the (already cleaned) text, in order; when the regex finds no match
the whole text is the single unit. -/
def sentencesOf (cleaned : String) : List String :=
  match sentenceScan [] false cleaned.data with
  | [] => [cleaned]
  | ss => ss.map fun l => ⟨l⟩

/-- `text.toLowerCase()` (ASCII model). -/
def jsToLower (s : String) : String :=
  ⟨s.data.map Char.toLower⟩

/-- Scanner for `text.split(/\s+/)`: `skipping` records whether a maximal
whitespace separator run is being consumed, `cur` is the current piece. -/
def splitWsAux (skipping : Bool) (cur : List Char) :
    List Char → List (List Char)
  | [] => if skipping then [[]] else [cur]
  | c :: cs =>
    if isWsChar c then
      if skipping then splitWsAux true [] cs
      else cur :: splitWsAux true [] cs
    else
      if skipping then splitWsAux false [c] cs
      else splitWsAux false (cur ++ [c]) cs

/-- `text.split(/\s+/)`: the pieces between maximal whitespace runs, keeping
the empty piece that JS produces at an end that touches whitespace. -/
def jsSplitWs (l : List Char) : List (List Char) :=
  splitWsAux false [] l

/-- `haystack.includes(needle)` — substring test. -/
def jsIncludes (haystack needle : String) : Bool :=
  decide (needle.data <:+: haystack.data)

/-- One step of the 32-bit rolling hash
`hash = ((hash << 5) - hash) + charCode; hash = hash & hash`:
wrap a value into the signed 32-bit range. -/
def wrap32 (n : ℤ) : ℤ :=
  (n + 2 ^ 31) % 2 ^ 32 - 2 ^ 31

/-- The rolling hash of a word: `hash = ((hash << 5) - hash) + c` with both
the shift and the final `& hash` wrapping to signed 32 bits. -/
def jsWordHash (w : List Char) : ℤ :=
  w.foldl (fun h c => wrap32 (wrap32 (h * 32) - h + (c.toNat : ℤ))) 0

/-- The value written for a word: `Math.abs(hash % 100) / 100`
(JS `%` truncates towards zero). -/
noncomputable def hashSlotValue (w : List Char) : ℝ :=
  ((Int.tmod (jsWordHash w) 100).natAbs : ℝ) / 100

/-- `simpleEmbedding` (both revisions): the deterministic fallback embedding.
Dimension-1024 vector; slot `i` holds the hash value of word `i` when
`i < words.length` (each index below 1024 is written exactly once), else 0. -/
noncomputable def simpleEmbedding (text : String) : List ℝ :=
  let words := jsSplitWs (jsToLower text).data
  (List.range 1024).map fun i =>
    match words[i]? with
    | some w => hashSlotValue w
    | none => 0

/-- Sum of coordinate products accumulated by the similarity loop
(`dotProduct`). -/
def dotList (u v : List ℝ) : ℝ :=
  (List.zipWith (· * ·) u v).sum

/-- Sum of squares accumulated by the similarity loop (`norm1` / `norm2`). -/
def normSq (v : List ℝ) : ℝ :=
  (v.map fun x => x * x).sum

namespace V1

/-- `cosineSimilarity` of the first (current) revision: guarded on dimension
mismatch / empty vectors and on zero norms. -/
noncomputable def cosineSimilarity (vec1 vec2 : List ℝ) : ℝ :=
  if vec1.length ≠ vec2.length ∨ vec1.length = 0 then 0
  else if normSq vec1 = 0 ∨ normSq vec2 = 0 then 0
  else dotList vec1 vec2 / (Real.sqrt (normSq vec1) * Real.sqrt (normSq vec2))

end V1

namespace V2

/-- `cosineSimilarity` of the second (legacy) revision: no dimension or
zero-norm guard; the denominator `Math.sqrt(norm1) * Math.sqrt(norm2) || 1`
falls back to 1 when the product is 0. -/
noncomputable def cosineSimilarity (vec1 vec2 : List ℝ) : ℝ :=
  let d := Real.sqrt (normSq vec1) * Real.sqrt (normSq vec2)
  dotList vec1 vec2 / (if d = 0 then 1 else d)

end V2

/-- The loop state of `splitText` (first revision): emitted chunks, the
running chunk, and the up-to-three last sentences kept for overlap. -/
structure SplitState where
  chunks : List String
  currentChunk : String
  lastSentences : List String

/-- `lastSentences.slice(-2)`: the last two elements (or all, if fewer). -/
def lastTwo (l : List String) : List String :=
  l.drop (l.length - 2)

/-- `array.join(' ')`. -/
def joinSp : List String → String
  | [] => ""
  | [a] => a
  | a :: b :: rest => a ++ " " ++ joinSp (b :: rest)

/-- One iteration of the sentence loop of `splitText` (first revision):
either emit the running chunk and reseed it with the overlap plus the new
sentence, or append the sentence to the running chunk. -/
def splitStep (chunkSize overlap : ℕ) (st : SplitState) (sentence : String) :
    SplitState :=
  let trimmedSentence := trimStr sentence
  if (st.currentChunk ++ " " ++ trimmedSentence).length > chunkSize ∧
      st.currentChunk.length > 0 then
    { chunks := st.chunks ++ [trimStr st.currentChunk]
      currentChunk :=
        if overlap > 0 ∧ st.lastSentences ≠ [] then
          joinSp (lastTwo st.lastSentences) ++ " " ++ trimmedSentence
        else trimmedSentence
      lastSentences := [trimmedSentence] }
  else
    { chunks := st.chunks
      currentChunk :=
        if st.currentChunk = "" then trimmedSentence
        else st.currentChunk ++ " " ++ trimmedSentence
      lastSentences :=
        let l := st.lastSentences ++ [trimmedSentence]
        if l.length > 3 then l.drop 1 else l }

/-- The sentence loop of `splitText` (first revision), plus the final
`if (currentChunk.trim()) chunks.push(currentChunk.trim())`. -/
def splitRun (chunkSize overlap : ℕ) (sentences : List String) : List String :=
  let st := sentences.foldl (splitStep chunkSize overlap) ⟨[], "", []⟩
  if trimStr st.currentChunk ≠ "" then st.chunks ++ [trimStr st.currentChunk]
  else st.chunks

namespace V1

/-- `splitText` of the first (current) revision: normalise whitespace, split
into sentence-like units, then accumulate greedily with overlap reseeding. -/
def splitText (text : String) (chunkSize : ℕ := 1000) (overlap : ℕ := 100) :
    List String :=
  splitRun chunkSize overlap (sentencesOf (cleanText text))

end V1

/-- A document record: the value stored in the `documents` map. -/
structure DocInfo where
  name : String
  uploadDate : String
deriving DecidableEq

/-- A chunk as stored in `this.chunks`. -/
structure DocumentChunk where
  id : String
  text : String
  source : String
  uploadDate : String
  embedding : Option (List ℝ)

/-- The mutable state of the `VectorStoreService` instance: the `documents`
map (insertion-ordered, unique keys) and the `chunks` array. -/
structure VectorStore where
  documents : List (String × DocInfo)
  chunks : List DocumentChunk

/-- `generateDocId`: ingestion timestamp plus the source name with every
character outside `[a-zA-Z0-9]` replaced by an underscore. -/
def generateDocId (filename : String) (now : ℕ) : String :=
  toString now ++ "_" ++ ⟨filename.data.map fun c => if c.isAlphanum then c else '_'⟩

/-- `Map.prototype.set`: update the existing entry in place, else append. -/
def mapSet (m : List (String × DocInfo)) (k : String) (v : DocInfo) :
    List (String × DocInfo) :=
  if m.any fun kv => kv.1 == k then
    m.map fun kv => if kv.1 == k then (k, v) else kv
  else m ++ [(k, v)]

namespace V1

/-- `processAndAddPDF` (first revision), after the external text extraction:
fails when the extracted text is empty; otherwise chunks the text with
`splitText(content, 1000, 100)`, skips chunks shorter than 50 characters,
embeds and appends the survivors, and registers the document record.
`embed` stands for the effectful `getEmbedding`; `now` for `Date.now()`;
the temporary-file cleanup is external to the store state. -/
def processAndAddPDF (embed : String → List ℝ) (s : VectorStore)
    (content originalName : String) (now : ℕ) (uploadDate : String) :
    Except String VectorStore :=
  if (trimStr content).length = 0 then
    .error "No text content extracted from PDF"
  else
    let textChunks := splitText content 1000 100
    let newChunks := textChunks.enum.filterMap fun ic =>
      if ic.2.length < 50 then none
      else some
        { id := originalName ++ "_chunk_" ++ toString ic.1 ++ "_" ++ toString now
          text := ic.2
          source := originalName
          uploadDate := uploadDate
          embedding := some (embed ic.2) }
    .ok
      { documents := mapSet s.documents (generateDocId originalName now)
          ⟨originalName, uploadDate⟩
        chunks := s.chunks ++ newChunks }

/-- `addDocument` (first revision), after the external file parsing: the
`.pdf` extension dispatches to `processAndAddPDF`; every other extension
chunks with the `splitText` defaults and appends every chunk (no minimum
length), then registers the document record. -/
def addDocument (embed : String → List ℝ) (s : VectorStore)
    (ext content originalName : String) (now : ℕ) (uploadDate : String) :
    Except String VectorStore :=
  if ext = ".pdf" then processAndAddPDF embed s content originalName now uploadDate
  else
    let textChunks := splitText content
    let newChunks := textChunks.enum.map fun ic =>
      { id := originalName ++ "_" ++ toString ic.1 ++ "_" ++ toString now
        text := ic.2
        source := originalName
        uploadDate := uploadDate
        embedding := some (embed ic.2) : DocumentChunk }
    .ok
      { documents := mapSet s.documents (generateDocId originalName now)
          ⟨originalName, uploadDate⟩
        chunks := s.chunks ++ newChunks }

/-- `textSimilarity` (both revisions): the fraction of query words that occur
as substrings of the lower-cased chunk text. -/
noncomputable def textSimilarity (query text : String) : ℝ :=
  let queryWords := (jsSplitWs (jsToLower query).data).map fun l => (⟨l⟩ : String)
  let textLower := jsToLower text
  ((queryWords.filter fun w => jsIncludes textLower w).length : ℝ) /
    (queryWords.length : ℝ)

end V1

/-- A chunk paired with its relevance score, as built by the `map` in
`searchSimilar`. -/
structure ScoredChunk where
  chunk : DocumentChunk
  score : ℝ

/-- The order realised by `similarities.sort((a, b) => b.score - a.score)`:
`a` may come before `b` when `b.score ≤ a.score`. -/
def scoreGe (a b : ScoredChunk) : Prop :=
  b.score ≤ a.score

noncomputable instance : DecidableRel scoreGe :=
  fun a b => inferInstanceAs (Decidable (b.score ≤ a.score))

instance : IsTotal ScoredChunk scoreGe :=
  ⟨fun a b => le_total b.score a.score⟩

instance : IsTrans ScoredChunk scoreGe :=
  ⟨fun _ _ _ hab hbc => le_trans hbc hab⟩

/-- `similarities.sort((a, b) => b.score - a.score)`: ECMAScript `sort` is
stable and orders by the comparator, so its result is the stable descending
sort — realised by insertion sort on `scoreGe`. -/
noncomputable def sortScored (l : List ScoredChunk) : List ScoredChunk :=
  List.insertionSort scoreGe l

namespace V1

/-- The score assignment of `searchSimilar` (first revision): cosine
similarity against the query embedding when the chunk has an embedding, else
lexical `textSimilarity`. -/
noncomputable def similarities (queryEmbedding : List ℝ) (query : String)
    (chunks : List DocumentChunk) : List ScoredChunk :=
  chunks.map fun c =>
    { chunk := c
      score :=
        match c.embedding with
        | some e => cosineSimilarity queryEmbedding e
        | none => textSimilarity query c.text }

/-- `similarities.sort(...).slice(0, topK)`. -/
noncomputable def topChunks (queryEmbedding : List ℝ) (query : String)
    (chunks : List DocumentChunk) (topK : ℕ) : List ScoredChunk :=
  (sortScored (similarities queryEmbedding query chunks)).take topK

/-- `const maxScore = topChunks[0]?.score || 0`. -/
noncomputable def maxScore (queryEmbedding : List ℝ) (query : String)
    (chunks : List DocumentChunk) (topK : ℕ) : ℝ :=
  match topChunks queryEmbedding query chunks topK with
  | [] => 0
  | t :: _ => t.score

/-- `const threshold = Math.max(0.3, maxScore * 0.5)`. -/
noncomputable def threshold (queryEmbedding : List ℝ) (query : String)
    (chunks : List DocumentChunk) (topK : ℕ) : ℝ :=
  max 0.3 (maxScore queryEmbedding query chunks topK * 0.5)

/-- `topChunks.filter(item => item.score > threshold)`. -/
noncomputable def relevantChunks (queryEmbedding : List ℝ) (query : String)
    (chunks : List DocumentChunk) (topK : ℕ) : List ScoredChunk :=
  (topChunks queryEmbedding query chunks topK).filter fun item =>
    threshold queryEmbedding query chunks topK < item.score

/-- The context formatting of `searchSimilar` (first revision):
source-tagged blocks joined by the fixed separator. -/
def renderContext (l : List ScoredChunk) : String :=
  String.intercalate "\n\n---\n\n"
    (l.map fun item => "[Source: " ++ item.chunk.source ++ "]\n" ++ item.chunk.text)

/-- `searchSimilar` (first revision), after the query embedding has been
obtained: empty store or no relevant chunk gives the empty context, else the
rendered relevant chunks. -/
noncomputable def searchSimilar (queryEmbedding : List ℝ) (query : String)
    (chunks : List DocumentChunk) (topK : ℕ := 5) : String :=
  if chunks.length = 0 then ""
  else if (relevantChunks queryEmbedding query chunks topK).length = 0 then ""
  else renderContext (relevantChunks queryEmbedding query chunks topK)

end V1

/-- One element of the `listDocuments()` result. -/
structure DocEntry where
  id : String
  name : String
  uploadDate : String
deriving DecidableEq

namespace V1

/-- `listDocuments`: a snapshot of the documents map as `{id, name,
uploadDate}` records. -/
def listDocuments (s : VectorStore) : List DocEntry :=
  s.documents.map fun kv => ⟨kv.1, kv.2.name, kv.2.uploadDate⟩

/-- `deleteDocument`: when `docId` is absent the call throws
`'Document not found'` and the state is untouched (the throw precedes every
mutation); otherwise every chunk whose `source` equals the document's name
is removed and the document entry is deleted. -/
def deleteDocument (s : VectorStore) (docId : String) :
    VectorStore × Except String Unit :=
  match s.documents.lookup docId with
  | none => (s, .error "Document not found")
  | some doc =>
    ({ documents := s.documents.eraseP fun kv => kv.1 == docId
       chunks := s.chunks.filter fun c => c.source != doc.name }, .ok ())

end V1

/-- One element of the per-document breakdown in `getStats()`. -/
structure DocStat where
  id : String
  name : String
  uploadDate : String
  chunks : ℕ

/-- The `getStats()` result. -/
structure Stats where
  totalDocuments : ℕ
  totalChunks : ℕ
  documents : List DocStat

namespace V1

/-- `getStats` (first revision): document count, chunk count, per-document
chunk counts keyed on `source == name`. -/
def getStats (s : VectorStore) : Stats :=
  { totalDocuments := s.documents.length
    totalChunks := s.chunks.length
    documents := s.documents.map fun kv =>
      ⟨kv.1, kv.2.name, kv.2.uploadDate,
        (s.chunks.filter fun c => c.source == kv.2.name).length⟩ }

/-- `searchSimilar` as a state transformer: the method body reads
`this.chunks` but contains no assignment to `this.documents` or
`this.chunks`, so the post-state is the pre-state. -/
noncomputable def searchSimilarS (s : VectorStore) (queryEmbedding : List ℝ)
    (query : String) (topK : ℕ) : String × VectorStore :=
  (searchSimilar queryEmbedding query s.chunks topK, s)

/-- `listDocuments` as a state transformer (no field assignment in the
body). -/
def listDocumentsS (s : VectorStore) : List DocEntry × VectorStore :=
  (listDocuments s, s)

/-- `getStats` as a state transformer (no field assignment in the body). -/
def getStatsS (s : VectorStore) : Stats × VectorStore :=
  (getStats s, s)

end V1

/-! ### Basic string and trimming lemmas -/

theorem strData_append (a b : String) : (a ++ b).data = a.data ++ b.data := by
  cases a
  cases b
  rfl

theorem strLength_data (s : String) : s.length = s.data.length := rfl

theorem strMk_data (s : String) : (⟨s.data⟩ : String) = s := by
  cases s
  rfl

theorem strEq_empty_iff (s : String) : s = "" ↔ s.data = [] := by
  cases s with
  | mk l =>
    show String.mk l = "" ↔ l = []
    constructor
    · intro h
      have hd : (String.mk l).data = ("" : String).data := by rw [h]
      exact hd
    · intro h
      subst h
      rfl

theorem trimStr_data (s : String) : (trimStr s).data = trimChars s.data := rfl

theorem trimChars_length_le (l : List Char) : (trimChars l).length ≤ l.length :=
  le_trans (List.rdropWhile_prefix _ _).length_le (List.dropWhile_suffix _).length_le

theorem trimStr_length_le (s : String) : (trimStr s).length ≤ s.length :=
  trimChars_length_le s.data

/-- `dropWhile` leaves a prefix of a `dropWhile`-stable list unchanged. -/
theorem dropWhile_prefix_self (p : Char → Bool) {pre D t : List Char}
    (hD : List.dropWhile p D = D) (ht : pre ++ t = D) :
    List.dropWhile p pre = pre := by
  cases pre with
  | nil => rfl
  | cons x xs =>
    have hx : ¬p x = true := by
      intro hpx
      subst ht
      rw [List.cons_append, List.dropWhile_cons, if_pos hpx] at hD
      have hle := (show (xs ++ t).dropWhile p <:+ xs ++ t from
        List.dropWhile_suffix p).length_le
      have := congrArg List.length hD
      simp only [List.length_cons] at this
      omega
    rw [List.dropWhile_cons, if_neg hx]

/-- The list-level trimming is idempotent. -/
theorem trimChars_idem (l : List Char) : trimChars (trimChars l) = trimChars l := by
  obtain ⟨t, ht⟩ := List.rdropWhile_prefix isWsChar (List.dropWhile isWsChar l)
  have hdw : List.dropWhile isWsChar (trimChars l) = trimChars l :=
    dropWhile_prefix_self isWsChar (List.dropWhile_idempotent isWsChar l) ht
  show List.rdropWhile isWsChar (List.dropWhile isWsChar (trimChars l)) = trimChars l
  rw [hdw]
  exact List.rdropWhile_idempotent _ _

theorem trimStr_idem (s : String) : trimStr (trimStr s) = trimStr s := by
  show (⟨trimChars (trimStr s).data⟩ : String) = trimStr s
  rw [trimStr_data, trimChars_idem]
  rfl

/-- A character list is trimmed: stripping whitespace at both ends changes
nothing. -/
def TrimmedL (l : List Char) : Prop :=
  trimChars l = l

theorem trimmedL_trimChars (l : List Char) : TrimmedL (trimChars l) :=
  trimChars_idem l

theorem trimmedL_of_endpoints {l : List Char} {x y : Char} {xs ys : List Char}
    (hcons : l = x :: xs) (hx : ¬isWsChar x = true)
    (hsnoc : l = ys ++ [y]) (hy : ¬isWsChar y = true) : TrimmedL l := by
  unfold TrimmedL trimChars
  have h1 : List.dropWhile isWsChar l = l := by
    rw [hcons, List.dropWhile_cons, if_neg hx]
  rw [h1, hsnoc]
  exact List.rdropWhile_concat_neg isWsChar ys y hy

theorem trimmedL_dropWhile_eq {l : List Char} (h : TrimmedL l) :
    List.dropWhile isWsChar l = l := by
  have h1 : (trimChars l).length ≤ (List.dropWhile isWsChar l).length :=
    (List.rdropWhile_prefix _ _).length_le
  have h2 : (List.dropWhile isWsChar l).length ≤ l.length :=
    (List.dropWhile_suffix _).length_le
  have h3 : (trimChars l).length = l.length := by rw [h]
  exact (List.dropWhile_suffix isWsChar).eq_of_length (by omega)

theorem trimmedL_head {l : List Char} {x : Char} {xs : List Char}
    (h : TrimmedL l) (hl : l = x :: xs) : ¬isWsChar x = true := by
  intro hx
  have hd := trimmedL_dropWhile_eq h
  rw [hl, List.dropWhile_cons, if_pos hx] at hd
  have hle := (show xs.dropWhile isWsChar <:+ xs from
    List.dropWhile_suffix isWsChar).length_le
  have := congrArg List.length hd
  simp only [List.length_cons] at this
  omega

theorem trimmedL_last {l : List Char} {y : Char} {ys : List Char}
    (h : TrimmedL l) (hl : l = ys ++ [y]) : ¬isWsChar y = true := by
  have hrd : List.rdropWhile isWsChar l = l := by
    have hd := trimmedL_dropWhile_eq h
    calc List.rdropWhile isWsChar l
        = List.rdropWhile isWsChar (List.dropWhile isWsChar l) := by rw [hd]
      _ = l := h
  have hne : l ≠ [] := by rw [hl]; exact List.append_ne_nil_of_right_ne_nil _ (by simp)
  have hlast := List.rdropWhile_eq_self_iff.mp hrd hne
  have hgl : l.getLast hne = y := by
    subst hl
    exact List.getLast_append _
  rwa [hgl] at hlast

theorem trimmedL_append {a b : List Char} (ha : TrimmedL a) (hb : TrimmedL b)
    (hna : a ≠ []) (hnb : b ≠ []) : TrimmedL (a ++ ' ' :: b) := by
  obtain ⟨x, xs, hxa⟩ : ∃ x xs, a = x :: xs := by
    cases a with
    | nil => exact absurd rfl hna
    | cons x xs => exact ⟨x, xs, rfl⟩
  rcases b.eq_nil_or_concat' with hbn | ⟨ys, y, hyb⟩
  · exact absurd hbn hnb
  · refine @trimmedL_of_endpoints (a ++ ' ' :: b) x y (xs ++ ' ' :: b)
      (a ++ ' ' :: ys) ?_ (trimmedL_head ha hxa) ?_ (trimmedL_last hb hyb)
    · rw [hxa]
      rfl
    · simp [hyb]

/-- A string is trimmed when its character list is. -/
def TrimmedS (s : String) : Prop :=
  TrimmedL s.data

theorem trimStr_eq_self {s : String} (h : TrimmedS s) : trimStr s = s := by
  show (⟨trimChars s.data⟩ : String) = s
  rw [show trimChars s.data = s.data from h]

theorem trimmedS_trimStr (s : String) : TrimmedS (trimStr s) := by
  show TrimmedL (trimStr s).data
  rw [trimStr_data]
  exact trimChars_idem _

theorem trimmedS_append {a b : String} (ha : TrimmedS a) (hb : TrimmedS b)
    (hna : a ≠ "") (hnb : b ≠ "") : TrimmedS (a ++ " " ++ b) := by
  show TrimmedL (a ++ " " ++ b).data
  have hd : (a ++ " " ++ b).data = a.data ++ ' ' :: b.data := by
    rw [strData_append, strData_append, List.append_assoc]
    rfl
  rw [hd]
  exact trimmedL_append ha hb
    (fun hc => hna ((strEq_empty_iff a).mpr hc))
    (fun hc => hnb ((strEq_empty_iff b).mpr hc))

theorem mem_dropWhile_of_not {p : Char → Bool} {x : Char} {l : List Char}
    (hx : ¬p x = true) (hm : x ∈ l) : x ∈ List.dropWhile p l := by
  induction l with
  | nil => exact absurd hm (List.not_mem_nil x)
  | cons a t ih =>
    rw [List.dropWhile_cons]
    by_cases hpa : p a = true
    · rw [if_pos hpa]
      rcases List.mem_cons.mp hm with he | ht
      · subst he
        exact absurd hpa hx
      · exact ih ht
    · rw [if_neg hpa]
      exact hm

theorem mem_trimChars_of_not {x : Char} {l : List Char}
    (hx : ¬isWsChar x = true) (hm : x ∈ l) : x ∈ trimChars l := by
  have h1 : x ∈ List.dropWhile isWsChar l := mem_dropWhile_of_not hx hm
  show x ∈ List.rdropWhile isWsChar (List.dropWhile isWsChar l)
  unfold List.rdropWhile
  rw [List.mem_reverse]
  exact mem_dropWhile_of_not hx (List.mem_reverse.mpr h1)

theorem trimChars_ne_nil_of_mem {x : Char} {l : List Char}
    (hx : ¬isWsChar x = true) (hm : x ∈ l) : trimChars l ≠ [] :=
  List.ne_nil_of_mem (mem_trimChars_of_not hx hm)

/-! ### Algebraic facts about the similarity primitives -/

theorem normSq_nonneg (v : List ℝ) : 0 ≤ normSq v := by
  unfold normSq
  induction v with
  | nil => simp
  | cons x t ih =>
    simp only [List.map_cons, List.sum_cons]
    exact add_nonneg (mul_self_nonneg x) ih

theorem dotList_self (v : List ℝ) : dotList v v = normSq v := by
  unfold dotList normSq
  induction v with
  | nil => rfl
  | cons x t ih =>
    simp only [List.zipWith_cons_cons, List.map_cons, List.sum_cons]
    rw [ih]

theorem normSq_neg (v : List ℝ) : normSq (v.map fun x => -x) = normSq v := by
  unfold normSq
  rw [List.map_map]
  congr 1
  apply List.map_congr_left
  intro x _
  simp [neg_mul_neg]

theorem dotList_neg_right (v : List ℝ) :
    dotList v (v.map fun x => -x) = -normSq v := by
  unfold dotList normSq
  induction v with
  | nil => simp
  | cons x t ih =>
    simp only [List.map_cons, List.zipWith_cons_cons, List.sum_cons]
    rw [ih]
    ring

theorem normSq_eq_zero_iff (v : List ℝ) : normSq v = 0 ↔ ∀ x ∈ v, x = 0 := by
  induction v with
  | nil => simp [normSq]
  | cons x t ih =>
    have hx : normSq (x :: t) = x * x + normSq t := by
      simp [normSq]
    rw [hx]
    rw [add_eq_zero_iff_of_nonneg (mul_self_nonneg x) (normSq_nonneg t)]
    simp [mul_self_eq_zero, ih, List.forall_mem_cons]

theorem dotList_zero_of_left {u : List ℝ} (v : List ℝ) (h : ∀ x ∈ u, x = 0) :
    dotList u v = 0 := by
  induction u generalizing v with
  | nil => simp [dotList]
  | cons x t ih =>
    cases v with
    | nil => simp [dotList]
    | cons y w =>
      have hx : x = 0 := h x (List.mem_cons_self x t)
      have ht : dotList t w = 0 := ih w fun z hz => h z (List.mem_cons_of_mem x hz)
      simp only [dotList, List.zipWith_cons_cons, List.sum_cons] at ht ⊢
      rw [hx, ht, zero_mul, zero_add]

theorem dotList_zero_of_right (u : List ℝ) {v : List ℝ} (h : ∀ x ∈ v, x = 0) :
    dotList u v = 0 := by
  induction u generalizing v with
  | nil => simp [dotList]
  | cons x t ih =>
    cases v with
    | nil => simp [dotList]
    | cons y w =>
      have hy : y = 0 := h y (List.mem_cons_self y w)
      have ht : dotList t w = 0 := ih fun z hz => h z (List.mem_cons_of_mem y hz)
      simp only [dotList, List.zipWith_cons_cons, List.sum_cons] at ht ⊢
      rw [hy, ht, mul_zero, zero_add]

/-! ### Claim C5: cosine similarity identities (both revisions) -/

/-- C5: for equal-dimension vectors `u, v`: `cosine(v, v) = 1` and
`cosine(v, -v) = -1` whenever `v` has nonzero norm, and `cosine(u, v) = 0`
whenever either vector has zero norm — for the cosine of both revisions. -/
theorem cosineSimilarity_spec (u v : List ℝ) (hlen : u.length = v.length) :
    (normSq v ≠ 0 →
      V1.cosineSimilarity v v = 1 ∧ V2.cosineSimilarity v v = 1 ∧
      V1.cosineSimilarity v (v.map fun x => -x) = -1 ∧
      V2.cosineSimilarity v (v.map fun x => -x) = -1) ∧
    (normSq u = 0 ∨ normSq v = 0 →
      V1.cosineSimilarity u v = 0 ∧ V2.cosineSimilarity u v = 0) := by
  constructor
  · intro hv
    have hvne : v.length ≠ 0 := by
      intro h0
      rw [List.length_eq_zero.mp h0] at hv
      exact hv (by simp [normSq])
    have hsq : Real.sqrt (normSq v) * Real.sqrt (normSq v) = normSq v :=
      Real.mul_self_sqrt (normSq_nonneg v)
    refine ⟨?_, ?_, ?_, ?_⟩
    · unfold V1.cosineSimilarity
      rw [if_neg (by simp [hvne]), if_neg (by simp [hv]), dotList_self, hsq,
        div_self hv]
    · show dotList v v /
        (if Real.sqrt (normSq v) * Real.sqrt (normSq v) = 0 then 1
         else Real.sqrt (normSq v) * Real.sqrt (normSq v)) = 1
      rw [dotList_self, hsq, if_neg hv, div_self hv]
    · unfold V1.cosineSimilarity
      rw [if_neg (by simp [hvne]), if_neg (by simp [normSq_neg, hv]),
        dotList_neg_right, normSq_neg, hsq, neg_div, div_self hv]
    · show dotList v (v.map fun x => -x) /
        (if Real.sqrt (normSq v) * Real.sqrt (normSq (v.map fun x => -x)) = 0
         then 1
         else Real.sqrt (normSq v) * Real.sqrt (normSq (v.map fun x => -x))) = -1
      rw [dotList_neg_right, normSq_neg, hsq, if_neg hv, neg_div, div_self hv]
  · intro huv
    have hdot : dotList u v = 0 := by
      rcases huv with h | h
      · exact dotList_zero_of_left v ((normSq_eq_zero_iff u).mp h)
      · exact dotList_zero_of_right u ((normSq_eq_zero_iff v).mp h)
    constructor
    · unfold V1.cosineSimilarity
      by_cases h0 : u.length = 0
      · rw [if_pos (Or.inr h0)]
      · have hguard : ¬(u.length ≠ v.length ∨ u.length = 0) := by
          push_neg
          exact ⟨hlen, h0⟩
        rw [if_neg hguard, if_pos huv]
    · show dotList u v /
        (if Real.sqrt (normSq u) * Real.sqrt (normSq v) = 0 then 1
         else Real.sqrt (normSq u) * Real.sqrt (normSq v)) = 0
      rw [hdot, zero_div]

/-- Witness for C5 at the concrete vectors `u = [0]`, `v = [1]`
(zero-norm case) and `v = [1]` (unit case). -/
theorem cosineSimilarity_spec_witness :
    V1.cosineSimilarity [(0 : ℝ)] [(1 : ℝ)] = 0 ∧
    V2.cosineSimilarity [(0 : ℝ)] [(1 : ℝ)] = 0 ∧
    V1.cosineSimilarity [(1 : ℝ)] [(1 : ℝ)] = 1 ∧
    V2.cosineSimilarity [(1 : ℝ)] [(1 : ℝ)] = 1 := by
  have h0 : normSq [(0 : ℝ)] = 0 := by simp [normSq]
  have h1 : normSq [(1 : ℝ)] ≠ 0 := by norm_num [normSq]
  have ha := (cosineSimilarity_spec [(0 : ℝ)] [(1 : ℝ)] rfl).2 (Or.inl h0)
  have hb := (cosineSimilarity_spec [(1 : ℝ)] [(1 : ℝ)] rfl).1 h1
  exact ⟨ha.1, ha.2, hb.1, hb.2.1⟩

/-! ### Claim C6: the fallback embedding is deterministic -/

/-- C6: `simpleEmbedding` is a pure function of the input text — two calls
with identical text produce identical vectors. -/
theorem simpleEmbedding_deterministic (t1 t2 : String) (h : t1 = t2) :
    simpleEmbedding t1 = simpleEmbedding t2 := by
  rw [h]

/-- Witness for C6 at a concrete text. -/
theorem simpleEmbedding_deterministic_witness :
    "hello world" = "hello world" ∧
    simpleEmbedding "hello world" = simpleEmbedding "hello world" :=
  ⟨rfl, simpleEmbedding_deterministic "hello world" "hello world" rfl⟩

/-! ### Claim C10: read-only operations do not change the store -/

/-- C10: `searchSimilar`, `listDocuments` and `getStats` leave the store
state (documents map and chunk collection) unchanged: their method bodies
contain no assignment to `this.documents` or `this.chunks`. -/
theorem readonly_ops_preserve_state (s : VectorStore) (qe : List ℝ)
    (q : String) (topK : ℕ) :
    (V1.searchSimilarS s qe q topK).2 = s ∧
    (V1.listDocumentsS s).2 = s ∧
    (V1.getStatsS s).2 = s :=
  ⟨rfl, rfl, rfl⟩

/-! ### Claim C4: deleting an unknown id fails and changes nothing -/

/-- C4: `deleteDocument(id)` fails with the `NotFound` error exactly when
`id` is not a key of the documents map, and a failing call leaves the store
unchanged. -/
theorem deleteDocument_notFound_iff (s : VectorStore) (docId : String) :
    ((V1.deleteDocument s docId).2 = Except.error "Document not found" ↔
      s.documents.lookup docId = none) ∧
    ((V1.deleteDocument s docId).2 = Except.error "Document not found" →
      (V1.deleteDocument s docId).1 = s) := by
  unfold V1.deleteDocument
  cases h : s.documents.lookup docId with
  | none => simp [h]
  | some doc => simp [h]

/-- Witness for C4 at the empty store. -/
theorem deleteDocument_notFound_iff_witness :
    ((V1.deleteDocument ⟨[], []⟩ "missing").2 =
        Except.error "Document not found" ↔
      (VectorStore.mk [] []).documents.lookup "missing" = none) ∧
    ((V1.deleteDocument ⟨[], []⟩ "missing").2 =
        Except.error "Document not found" →
      (V1.deleteDocument ⟨[], []⟩ "missing").1 = ⟨[], []⟩) :=
  deleteDocument_notFound_iff ⟨[], []⟩ "missing"

/-! ### Claim C3: cascading delete -/

/-- With unique keys, no entry surviving `eraseP (·.1 == k)` has key `k`. -/
theorem keys_eraseP_ne (m : List (String × DocInfo)) (k : String)
    (hnd : (m.map Prod.fst).Nodup) :
    ∀ kv ∈ m.eraseP fun kv => kv.1 == k, kv.1 ≠ k := by
  induction m with
  | nil => intro kv hkv; exact absurd hkv (List.not_mem_nil kv)
  | cons a t ih =>
    intro kv hkv
    rw [List.eraseP_cons] at hkv
    by_cases hak : a.1 == k
    · rw [hak] at hkv
      simp only [cond_true] at hkv
      have hA : a.1 ∉ t.map Prod.fst := (List.nodup_cons.mp hnd).1
      intro hkvk
      apply hA
      rw [show a.1 = k from eq_of_beq hak, ← hkvk]
      exact List.mem_map_of_mem Prod.fst hkv
    · rw [Bool.not_eq_true] at hak
      rw [hak] at hkv
      simp only [cond_false] at hkv
      rcases List.mem_cons.mp hkv with he | ht
      · subst he
        intro hkvk
        rw [hkvk] at hak
        simp at hak
      · exact ih (List.nodup_cons.mp hnd).2 kv ht

/-- C3: after a successful `deleteDocument(id)`, no chunk in the store has
`source` equal to the deleted document's name, and `listDocuments()` no
longer contains `id`. -/
theorem deleteDocument_cascading (s : VectorStore) (docId : String)
    (doc : DocInfo) (hnd : (s.documents.map Prod.fst).Nodup)
    (hfound : s.documents.lookup docId = some doc) :
    (V1.deleteDocument s docId).2 = Except.ok () ∧
    (∀ c ∈ (V1.deleteDocument s docId).1.chunks, c.source ≠ doc.name) ∧
    (∀ e ∈ V1.listDocuments (V1.deleteDocument s docId).1, e.id ≠ docId) := by
  unfold V1.deleteDocument
  simp only [hfound]
  refine ⟨by trivial, ?_, ?_⟩
  · intro c hc
    have hf := List.of_mem_filter hc
    simpa using hf
  · intro e he
    simp only [V1.listDocuments, List.mem_map] at he
    obtain ⟨kv, hkv, hekv⟩ := he
    have hne := keys_eraseP_ne s.documents docId hnd kv hkv
    rw [← hekv]
    exact hne

/-- Witness for C3 at a concrete two-chunk store. -/
theorem deleteDocument_cascading_witness :
    (V1.deleteDocument
        ⟨[("id1", ⟨"doc.txt", "d"⟩)],
         [⟨"c1", "alpha", "doc.txt", "d", none⟩,
          ⟨"c2", "beta", "other.txt", "d", none⟩]⟩ "id1").2 = Except.ok () ∧
    (∀ c ∈ (V1.deleteDocument
        ⟨[("id1", ⟨"doc.txt", "d"⟩)],
         [⟨"c1", "alpha", "doc.txt", "d", none⟩,
          ⟨"c2", "beta", "other.txt", "d", none⟩]⟩ "id1").1.chunks,
      c.source ≠ "doc.txt") ∧
    (∀ e ∈ V1.listDocuments (V1.deleteDocument
        ⟨[("id1", ⟨"doc.txt", "d"⟩)],
         [⟨"c1", "alpha", "doc.txt", "d", none⟩,
          ⟨"c2", "beta", "other.txt", "d", none⟩]⟩ "id1").1,
      e.id ≠ "id1") :=
  deleteDocument_cascading _ "id1" ⟨"doc.txt", "d"⟩ (by decide) rfl

/-! ### Claim C2: minimum chunk length at ingestion -/

set_option maxRecDepth 4000

/-- C2 (amended): the PDF ingestion path `processAndAddPDF` never adds a
chunk shorter than 50 characters — every chunk of the resulting store is
either an old chunk or has length at least 50. -/
theorem processAndAddPDF_min_chunk_length (embed : String → List ℝ)
    (s : VectorStore) (content originalName : String) (now : ℕ)
    (uploadDate : String) (st' : VectorStore)
    (hok : V1.processAndAddPDF embed s content originalName now uploadDate =
      Except.ok st')
    (c : DocumentChunk) (hc : c ∈ st'.chunks) :
    c ∈ s.chunks ∨ 50 ≤ c.text.length := by
  unfold V1.processAndAddPDF at hok
  by_cases hempty : (trimStr content).length = 0
  · rw [if_pos hempty] at hok
    exact absurd hok (by simp)
  · rw [if_neg hempty] at hok
    simp only [Except.ok.injEq] at hok
    subst hok
    rcases List.mem_append.mp hc with h | h
    · exact Or.inl h
    · right
      obtain ⟨ic, _, hic⟩ := List.mem_filterMap.mp h
      by_cases hlen : ic.2.length < 50
      · rw [if_pos hlen] at hic
        exact absurd hic (by simp)
      · rw [if_neg hlen] at hic
        simp only [Option.some.injEq] at hic
        rw [← hic]
        show 50 ≤ ic.2.length
        omega

/-- Witness for C2's amended theorem: a 68-character single-sentence PDF
ingestion adds exactly one chunk, which satisfies the length bound. -/
theorem processAndAddPDF_min_chunk_length_witness :
    (⟨"doc.pdf_chunk_0_0",
        "This sentence is definitely longer than the fifty character minimum.",
        "doc.pdf", "d", some []⟩ : DocumentChunk) ∈
      (VectorStore.mk [] []).chunks ∨
    50 ≤ ("This sentence is definitely longer than the fifty character minimum." : String).length :=
  processAndAddPDF_min_chunk_length (fun _ => []) ⟨[], []⟩
    "This sentence is definitely longer than the fifty character minimum."
    "doc.pdf" 0 "d"
    ⟨[("0_doc_pdf", ⟨"doc.pdf", "d"⟩)],
      [⟨"doc.pdf_chunk_0_0",
        "This sentence is definitely longer than the fifty character minimum.",
        "doc.pdf", "d", some []⟩]⟩
    rfl _ (List.mem_singleton.mpr rfl)

/-- C2 counterexample: as stated over every ingestion call the claim fails —
`addDocument` on a `.txt` file with the 6-character text `"Short."` adds a
chunk shorter than 50 characters to the store. -/
theorem addDocument_short_chunk_cex :
    ∃ st', V1.addDocument (fun _ => []) ⟨[], []⟩ ".txt" "Short." "doc.txt" 0 "d" =
        Except.ok st' ∧
      ∃ c ∈ st'.chunks, c.text.length < 50 := by
  refine ⟨⟨[("0_doc_txt", ⟨"doc.txt", "d"⟩)],
    [⟨"doc.txt_0_0", "Short.", "doc.txt", "d", some []⟩]⟩, rfl, ?_⟩
  exact ⟨⟨"doc.txt_0_0", "Short.", "doc.txt", "d", some []⟩,
    List.mem_singleton.mpr rfl, by decide⟩

/-! ### Claim C1: the adaptive relevance threshold -/

/-- C1: every chunk rendered into the context string (`searchSimilar`
renders exactly `relevantChunks`) has score strictly greater than
`max(0.3, maxScore * 0.5)`, where `maxScore` is the best score among the
top-`topK` ranked chunks. -/
theorem searchSimilar_threshold (qe : List ℝ) (query : String)
    (chunks : List DocumentChunk) (topK : ℕ) (hne : chunks ≠ [])
    (item : ScoredChunk)
    (hmem : item ∈ V1.relevantChunks qe query chunks topK) :
    max 0.3 (V1.maxScore qe query chunks topK * 0.5) < item.score := by
  have hp := List.of_mem_filter hmem
  have hlt := of_decide_eq_true hp
  simpa [V1.threshold] using hlt

/-- Witness for C1: a one-chunk store without an embedding, scored by the
lexical fallback (score 1), passes the adaptive filter. -/
theorem searchSimilar_threshold_witness :
    ([⟨"c1", "the hello text body", "doc.txt", "d", none⟩] :
        List DocumentChunk) ≠ [] ∧
    max 0.3 (V1.maxScore [] "hello"
        [⟨"c1", "the hello text body", "doc.txt", "d", none⟩] 5 * 0.5) <
      (⟨⟨"c1", "the hello text body", "doc.txt", "d", none⟩,
        V1.textSimilarity "hello" "the hello text body"⟩ : ScoredChunk).score := by
  constructor
  · simp
  · have hts : V1.textSimilarity "hello" "the hello text body" = 1 := by
      show ((1 : ℕ) : ℝ) / ((1 : ℕ) : ℝ) = 1
      norm_num
    refine searchSimilar_threshold [] "hello"
      [⟨"c1", "the hello text body", "doc.txt", "d", none⟩] 5 (by simp)
      ⟨⟨"c1", "the hello text body", "doc.txt", "d", none⟩,
        V1.textSimilarity "hello" "the hello text body"⟩ ?_
    show _ ∈ List.filter _ (V1.topChunks _ _ _ _)
    refine List.mem_filter.mpr ⟨?_, ?_⟩
    · show _ ∈ List.take 5 (sortScored (V1.similarities [] "hello" _))
      exact List.mem_singleton.mpr rfl
    · refine decide_eq_true ?_
      show V1.threshold [] "hello" _ 5 < _
      have hms : V1.maxScore [] "hello"
          [⟨"c1", "the hello text body", "doc.txt", "d", none⟩] 5 =
          V1.textSimilarity "hello" "the hello text body" := rfl
      unfold V1.threshold
      rw [hms, hts]
      norm_num

/-! ### Claim C9: shape of the context string -/

theorem sortScored_pairwise (l : List ScoredChunk) :
    List.Pairwise scoreGe (sortScored l) :=
  List.sorted_insertionSort scoreGe l

theorem relevantChunks_pairwise (qe : List ℝ) (query : String)
    (chunks : List DocumentChunk) (topK : ℕ) :
    List.Pairwise scoreGe (V1.relevantChunks qe query chunks topK) := by
  have hsub : List.Sublist (V1.relevantChunks qe query chunks topK)
      (sortScored (V1.similarities qe query chunks)) :=
    (List.filter_sublist _).trans (List.take_sublist _ _)
  exact (sortScored_pairwise _).sublist hsub

/-- C9: the context string returned by `searchSimilar` is either empty (in
particular on an empty chunk collection — a normal outcome, not an error), or
the blocks `"[Source: <name>]\n<text>"` of the nonempty `relevantChunks`
list — whose program-computed scores are pairwise descending — joined by the
fixed separator `"\n\n---\n\n"`. -/
theorem searchSimilar_output_shape (qe : List ℝ) (query : String)
    (chunks : List DocumentChunk) (topK : ℕ) :
    (chunks = [] → V1.searchSimilar qe query chunks topK = "") ∧
    (V1.searchSimilar qe query chunks topK = "" ∨
      (V1.relevantChunks qe query chunks topK ≠ [] ∧
        List.Pairwise (fun a b : ScoredChunk => b.score ≤ a.score)
          (V1.relevantChunks qe query chunks topK) ∧
        V1.searchSimilar qe query chunks topK =
          String.intercalate "\n\n---\n\n"
            ((V1.relevantChunks qe query chunks topK).map fun item =>
              "[Source: " ++ item.chunk.source ++ "]\n" ++ item.chunk.text))) := by
  constructor
  · intro h
    unfold V1.searchSimilar
    rw [if_pos (by rw [h]; rfl)]
  · by_cases h0 : chunks.length = 0
    · left
      unfold V1.searchSimilar
      rw [if_pos h0]
    · by_cases hrel : (V1.relevantChunks qe query chunks topK).length = 0
      · left
        unfold V1.searchSimilar
        rw [if_neg h0, if_pos hrel]
      · right
        refine ⟨?_, ?_, ?_⟩
        · intro hnil
          rw [hnil] at hrel
          exact hrel rfl
        · exact relevantChunks_pairwise qe query chunks topK
        · unfold V1.searchSimilar V1.renderContext
          rw [if_neg h0, if_neg hrel]

/-- Witness for C9 at the empty store (Scenario A: empty context). -/
theorem searchSimilar_output_shape_witness :
    V1.searchSimilar [] "anything" [] 5 = "" :=
  (searchSimilar_output_shape [] "anything" [] 5).1 rfl

/-! ### Claim C7: the chunk size bound -/

/-- A chunk within the claimed bound: at most `chunkSize` characters, or a
single (trimmed) sentence of the input. -/
def ChunkOkay (chunkSize : ℕ) (sents : List String) (c : String) : Prop :=
  c.length ≤ chunkSize ∨ c ∈ sents.map trimStr

theorem chunkOkay_trim {chunkSize : ℕ} {sents : List String} {cur : String}
    (h : ChunkOkay chunkSize sents cur) :
    ChunkOkay chunkSize sents (trimStr cur) := by
  rcases h with h | h
  · exact Or.inl (le_trans (trimStr_length_le cur) h)
  · obtain ⟨s, hs, hcur⟩ := List.mem_map.mp h
    right
    rw [← hcur, trimStr_idem]
    exact List.mem_map_of_mem trimStr hs

theorem strLength_pos_of_ne {s : String} (h : s ≠ "") : s.length > 0 := by
  rw [strLength_data]
  rcases Nat.eq_zero_or_pos s.data.length with h0 | hp
  · exact absurd ((strEq_empty_iff s).mpr (List.length_eq_zero.mp h0)) h
  · exact hp

theorem splitStep_zero_preserve (chunkSize : ℕ) (sents : List String)
    (st : SplitState) (s : String) (hs : s ∈ sents)
    (hchunks : ∀ c ∈ st.chunks, ChunkOkay chunkSize sents c)
    (hcur : st.currentChunk = "" ∨ ChunkOkay chunkSize sents st.currentChunk) :
    (∀ c ∈ (splitStep chunkSize 0 st s).chunks, ChunkOkay chunkSize sents c) ∧
    ((splitStep chunkSize 0 st s).currentChunk = "" ∨
      ChunkOkay chunkSize sents (splitStep chunkSize 0 st s).currentChunk) := by
  unfold splitStep
  by_cases hcond : (st.currentChunk ++ " " ++ trimStr s).length > chunkSize ∧
      st.currentChunk.length > 0
  · rw [if_pos hcond]
    constructor
    · intro c hc
      rcases List.mem_append.mp hc with h | h
      · exact hchunks c h
      · rw [List.mem_singleton] at h
        subst h
        rcases hcur with he | hok
        · rw [he] at hcond
          exact absurd hcond.2 (by decide)
        · exact chunkOkay_trim hok
    · right
      rw [if_neg (by simp)]
      exact Or.inr (List.mem_map_of_mem trimStr hs)
  · rw [if_neg hcond]
    refine ⟨hchunks, ?_⟩
    by_cases hemp : st.currentChunk = ""
    · rw [if_pos hemp]
      exact Or.inr (Or.inr (List.mem_map_of_mem trimStr hs))
    · rw [if_neg hemp]
      right
      left
      have hlen : ¬(st.currentChunk ++ " " ++ trimStr s).length > chunkSize := by
        intro hgt
        exact hcond ⟨hgt, strLength_pos_of_ne hemp⟩
      show (st.currentChunk ++ " " ++ trimStr s).length ≤ chunkSize
      omega

theorem splitFold_zero (chunkSize : ℕ) (sents : List String) :
    ∀ (ss : List String) (st : SplitState),
    (∀ x ∈ ss, x ∈ sents) →
    (∀ c ∈ st.chunks, ChunkOkay chunkSize sents c) →
    (st.currentChunk = "" ∨ ChunkOkay chunkSize sents st.currentChunk) →
    (∀ c ∈ (ss.foldl (splitStep chunkSize 0) st).chunks,
      ChunkOkay chunkSize sents c) ∧
    ((ss.foldl (splitStep chunkSize 0) st).currentChunk = "" ∨
      ChunkOkay chunkSize sents
        (ss.foldl (splitStep chunkSize 0) st).currentChunk) := by
  intro ss
  induction ss with
  | nil => intro st _ h1 h2; exact ⟨h1, h2⟩
  | cons s rest ih =>
    intro st hmem h1 h2
    have hstep := splitStep_zero_preserve chunkSize sents st s
      (hmem s (List.mem_cons_self s rest)) h1 h2
    exact ih (splitStep chunkSize 0 st s)
      (fun x hx => hmem x (List.mem_cons_of_mem s hx)) hstep.1 hstep.2

/-- C7 (amended): with `overlap = 0` every chunk emitted by `splitText` is
at most `chunkSize` characters long or is a single (trimmed) sentence of the
normalised input. -/
theorem splitText_size_bound_no_overlap (text : String) (chunkSize : ℕ)
    (c : String) (hc : c ∈ V1.splitText text chunkSize 0) :
    c.length ≤ chunkSize ∨ c ∈ (sentencesOf (cleanText text)).map trimStr := by
  unfold V1.splitText splitRun at hc
  have hfold := splitFold_zero chunkSize (sentencesOf (cleanText text))
    (sentencesOf (cleanText text)) ⟨[], "", []⟩ (fun x hx => hx)
    (by intro c hc; exact absurd hc (List.not_mem_nil c)) (Or.inl rfl)
  by_cases hfin : trimStr ((sentencesOf (cleanText text)).foldl
      (splitStep chunkSize 0) ⟨[], "", []⟩).currentChunk ≠ ""
  · rw [if_pos hfin] at hc
    rcases List.mem_append.mp hc with h | h
    · exact hfold.1 c h
    · rw [List.mem_singleton] at h
      subst h
      rcases hfold.2 with he | hok
      · rw [he] at hfin
        exact absurd rfl hfin
      · exact chunkOkay_trim hok
  · rw [if_neg hfin] at hc
    exact hfold.1 c hc

/-- Witness for C7's amended theorem at a concrete no-overlap call. -/
theorem splitText_size_bound_no_overlap_witness :
    "Hi. Yo." ∈ V1.splitText "Hi. Yo." 100 0 ∧
    ("Hi. Yo.".length ≤ 100 ∨
      "Hi. Yo." ∈ (sentencesOf (cleanText "Hi. Yo.")).map trimStr) :=
  ⟨by decide, splitText_size_bound_no_overlap "Hi. Yo." 100 "Hi. Yo." (by decide)⟩

/-- C7 counterexample: with overlap, `splitText` emits the 15-character
chunk `"Aaaaaa. Bbbbbb."` for `chunkSize = 10`, and that chunk is not a
single sentence of the input. -/
theorem splitText_size_bound_cex :
    ∃ c ∈ V1.splitText "Aaaaaa. Bbbbbb. Cccccc." 10 1,
      10 < c.length ∧
      c ∉ (sentencesOf (cleanText "Aaaaaa. Bbbbbb. Cccccc.")).map trimStr := by
  refine ⟨"Aaaaaa. Bbbbbb.", by decide, by decide, by decide⟩

/-! ### Claim C8: chunking coverage -/

theorem subChars_refl (u : List Char) : u <:+: u :=
  ⟨[], [], by simp⟩

theorem subChars_nil (v : List Char) : [] <:+: v :=
  ⟨[], v, by simp⟩

theorem subChars_append_right {u a : List Char} (b : List Char)
    (h : u <:+: a) : u <:+: a ++ b := by
  obtain ⟨p, q, hpq⟩ := h
  exact ⟨p, q ++ b, by rw [← hpq]; simp⟩

theorem eq_nil_of_subChars_nil {u : List Char} (h : u <:+: []) : u = [] := by
  obtain ⟨p, q, hpq⟩ := h
  have := congrArg List.length hpq
  simp only [List.length_append, List.length_nil] at this
  exact List.length_eq_zero.mp (by omega)

/-- A substring of the running chunk survives appending `" " ++ t`. -/
theorem subChars_extend {u : List Char} (a t : String)
    (h : u <:+: a.data) : u <:+: (a ++ " " ++ t).data := by
  rw [strData_append]
  exact subChars_append_right _ (by rw [strData_append]; exact subChars_append_right _ h)

/-- The appended sentence is a substring of the extended running chunk. -/
theorem subChars_last (a t : String) : t.data <:+: (a ++ " " ++ t).data := by
  rw [strData_append]
  exact ⟨(a ++ " ").data, [], by simp⟩

theorem isPunct_not_ws {c : Char} (h : isPunctChar c = true) :
    ¬isWsChar c = true := by
  simp only [isPunctChar, Bool.or_eq_true, beq_iff_eq] at h
  rcases h with (h | h) | h <;> subst h <;> decide

/-- Every match produced by the sentence scanner contains a punctuation
character (its terminal run). -/
theorem sentenceScan_punct :
    ∀ (cs acc : List Char) (inP : Bool),
    (inP = true → ∃ c ∈ acc, isPunctChar c = true) →
    ∀ s ∈ sentenceScan acc inP cs, ∃ c ∈ s, isPunctChar c = true := by
  intro cs
  induction cs with
  | nil =>
    intro acc inP hinv s hs
    unfold sentenceScan at hs
    cases inP with
    | true =>
      rw [if_pos rfl, List.mem_singleton] at hs
      subst hs
      exact hinv rfl
    | false =>
      rw [if_neg (by simp)] at hs
      exact absurd hs (List.not_mem_nil s)
  | cons c rest ih =>
    intro acc inP hinv s hs
    unfold sentenceScan at hs
    by_cases hp : isPunctChar c = true
    · rw [if_pos hp] at hs
      by_cases hacc : acc = []
      · rw [if_pos hacc] at hs
        exact ih [] false (by intro h; exact absurd h (by simp)) s hs
      · rw [if_neg hacc] at hs
        refine ih (acc ++ [c]) true ?_ s hs
        intro _
        exact ⟨c, List.mem_append_right acc (List.mem_singleton_self c), hp⟩
    · rw [if_neg hp] at hs
      cases inP with
      | true =>
        rw [if_pos rfl] at hs
        rcases List.mem_cons.mp hs with he | ht
        · subst he
          exact hinv rfl
        · exact ih [c] false (by intro h; exact absurd h (by simp)) s ht
      | false =>
        rw [if_neg (by simp)] at hs
        exact ih (acc ++ [c]) false (by intro h; exact absurd h (by simp)) s hs

/-- When the cleaned text is nonempty and trimmed, every sentence unit has a
nonempty trim. -/
theorem sentences_trim_ne (cleaned : String) (hT : TrimmedS cleaned)
    (hne : cleaned ≠ "") :
    ∀ s ∈ sentencesOf cleaned, trimStr s ≠ "" := by
  intro s hs
  unfold sentencesOf at hs
  cases hscan : sentenceScan [] false cleaned.data with
  | nil =>
    rw [hscan] at hs
    rw [List.mem_singleton] at hs
    subst hs
    rw [trimStr_eq_self hT]
    exact hne
  | cons a t =>
    rw [hscan] at hs
    obtain ⟨l, hl, hsl⟩ := List.mem_map.mp hs
    rw [← hscan] at hl
    obtain ⟨c, hc, hcp⟩ := sentenceScan_punct cleaned.data [] false
      (by intro h; exact absurd h (by simp)) l hl
    intro hcontra
    have : trimChars l ≠ [] := trimChars_ne_nil_of_mem
      (fun hw => isPunct_not_ws hcp hw) hc
    apply this
    rw [← hsl] at hcontra
    exact (strEq_empty_iff (trimStr ⟨l⟩)).mp hcontra

/-- The overlap buffer only holds trimmed, nonempty sentences. -/
def GoodLast (l : List String) : Prop :=
  ∀ x ∈ l, TrimmedS x ∧ x ≠ ""

theorem goodLast_lastTwo {l : List String} (h : GoodLast l) :
    GoodLast (lastTwo l) :=
  fun x hx => h x (List.mem_of_mem_drop hx)

theorem lastTwo_ne_nil {l : List String} (h : l ≠ []) : lastTwo l ≠ [] := by
  have hl : 0 < l.length := List.length_pos.mpr h
  apply List.length_pos.mp
  unfold lastTwo
  rw [List.length_drop]
  omega

theorem joinSp_good : ∀ l : List String, GoodLast l → l ≠ [] →
    TrimmedS (joinSp l) ∧ joinSp l ≠ "" := by
  intro l
  induction l with
  | nil => intro _ h; exact absurd rfl h
  | cons a rest ih =>
    intro hg _
    cases rest with
    | nil => exact hg a (List.mem_singleton_self a)
    | cons b rest2 =>
      have hr := ih (fun x hx => hg x (List.mem_cons_of_mem a hx)) (by simp)
      have ha := hg a (List.mem_cons_self a _)
      show TrimmedS (a ++ " " ++ joinSp (b :: rest2)) ∧
        a ++ " " ++ joinSp (b :: rest2) ≠ ""
      refine ⟨trimmedS_append ha.1 hr.1 ha.2 hr.2, ?_⟩
      intro hcontra
      have hd : (a ++ " " ++ joinSp (b :: rest2)).data =
          a.data ++ ' ' :: (joinSp (b :: rest2)).data := by
        rw [strData_append, strData_append, List.append_assoc]
        rfl
      rw [strEq_empty_iff, hd] at hcontra
      exact List.append_ne_nil_of_right_ne_nil _ (by simp) hcontra

/-- One step of the sentence loop: the running chunk stays trimmed, the
overlap buffer stays good, the new sentence lands in the running chunk,
substrings of the old running chunk stay covered, and already emitted chunks
survive. -/
theorem splitStep_state_inv (chunkSize overlap : ℕ) (st : SplitState)
    (s : String) (hcur : TrimmedS st.currentChunk)
    (hlast : GoodLast st.lastSentences) (hts : trimStr s ≠ "") :
    TrimmedS (splitStep chunkSize overlap st s).currentChunk ∧
    GoodLast (splitStep chunkSize overlap st s).lastSentences ∧
    (trimStr s).data <:+: (splitStep chunkSize overlap st s).currentChunk.data ∧
    (∀ u, u <:+: st.currentChunk.data →
      (∃ c ∈ (splitStep chunkSize overlap st s).chunks, u <:+: c.data) ∨
        u <:+: (splitStep chunkSize overlap st s).currentChunk.data) ∧
    (∀ c ∈ st.chunks, c ∈ (splitStep chunkSize overlap st s).chunks) := by
  unfold splitStep
  by_cases hcond : (st.currentChunk ++ " " ++ trimStr s).length > chunkSize ∧
      st.currentChunk.length > 0
  · rw [if_pos hcond]
    refine ⟨?_, ?_, ?_, ?_, ?_⟩
    · show TrimmedS (if overlap > 0 ∧ st.lastSentences ≠ [] then
        joinSp (lastTwo st.lastSentences) ++ " " ++ trimStr s else trimStr s)
      by_cases hov : overlap > 0 ∧ st.lastSentences ≠ []
      · rw [if_pos hov]
        have hj := joinSp_good (lastTwo st.lastSentences)
          (goodLast_lastTwo hlast) (lastTwo_ne_nil hov.2)
        exact trimmedS_append hj.1 (trimmedS_trimStr s) hj.2 hts
      · rw [if_neg hov]
        exact trimmedS_trimStr s
    · show GoodLast [trimStr s]
      intro x hx
      rw [List.mem_singleton] at hx
      subst hx
      exact ⟨trimmedS_trimStr s, hts⟩
    · show (trimStr s).data <:+: (if overlap > 0 ∧ st.lastSentences ≠ [] then
        joinSp (lastTwo st.lastSentences) ++ " " ++ trimStr s else trimStr s).data
      by_cases hov : overlap > 0 ∧ st.lastSentences ≠ []
      · rw [if_pos hov]
        exact subChars_last _ _
      · rw [if_neg hov]
    · intro u hu
      left
      refine ⟨trimStr st.currentChunk, ?_, ?_⟩
      · show trimStr st.currentChunk ∈ st.chunks ++ [trimStr st.currentChunk]
        exact List.mem_append_right _ (List.mem_singleton_self _)
      · rw [trimStr_eq_self hcur]
        exact hu
    · intro c hc
      show c ∈ st.chunks ++ [trimStr st.currentChunk]
      exact List.mem_append_left _ hc
  · rw [if_neg hcond]
    refine ⟨?_, ?_, ?_, ?_, ?_⟩
    · show TrimmedS (if st.currentChunk = "" then trimStr s
        else st.currentChunk ++ " " ++ trimStr s)
      by_cases hemp : st.currentChunk = ""
      · rw [if_pos hemp]
        exact trimmedS_trimStr s
      · rw [if_neg hemp]
        exact trimmedS_append hcur (trimmedS_trimStr s) hemp hts
    · show GoodLast (if (st.lastSentences ++ [trimStr s]).length > 3 then
        List.drop 1 (st.lastSentences ++ [trimStr s])
        else st.lastSentences ++ [trimStr s])
      intro x hx
      have hx' : x ∈ st.lastSentences ++ [trimStr s] := by
        by_cases hlen : (st.lastSentences ++ [trimStr s]).length > 3
        · rw [if_pos hlen] at hx
          exact List.mem_of_mem_drop hx
        · rw [if_neg hlen] at hx
          exact hx
      rcases List.mem_append.mp hx' with h | h
      · exact hlast x h
      · rw [List.mem_singleton] at h
        subst h
        exact ⟨trimmedS_trimStr s, hts⟩
    · show (trimStr s).data <:+: (if st.currentChunk = "" then trimStr s
        else st.currentChunk ++ " " ++ trimStr s).data
      by_cases hemp : st.currentChunk = ""
      · rw [if_pos hemp]
      · rw [if_neg hemp]
        exact subChars_last _ _
    · intro u hu
      right
      show u <:+: (if st.currentChunk = "" then trimStr s
        else st.currentChunk ++ " " ++ trimStr s).data
      by_cases hemp : st.currentChunk = ""
      · rw [if_pos hemp]
        have hnil : u <:+: ([] : List Char) := by
          rw [hemp] at hu
          exact hu
        rw [eq_nil_of_subChars_nil hnil]
        exact subChars_nil _
      · rw [if_neg hemp]
        exact subChars_extend _ _ hu
    · intro c hc
      exact hc

/-- The sentence loop: every processed sentence's trim is covered by an
emitted chunk or by the running chunk, which stays trimmed. -/
theorem splitFold_cov (chunkSize overlap : ℕ) :
    ∀ (ss : List String) (st : SplitState),
    TrimmedS st.currentChunk →
    GoodLast st.lastSentences →
    (∀ s ∈ ss, trimStr s ≠ "") →
    TrimmedS ((ss.foldl (splitStep chunkSize overlap) st).currentChunk) ∧
    (∀ c ∈ st.chunks,
      c ∈ (ss.foldl (splitStep chunkSize overlap) st).chunks) ∧
    (∀ u, u <:+: st.currentChunk.data →
      (∃ c ∈ (ss.foldl (splitStep chunkSize overlap) st).chunks,
          u <:+: c.data) ∨
        u <:+: (ss.foldl (splitStep chunkSize overlap) st).currentChunk.data) ∧
    (∀ s ∈ ss,
      (∃ c ∈ (ss.foldl (splitStep chunkSize overlap) st).chunks,
          (trimStr s).data <:+: c.data) ∨
        (trimStr s).data <:+:
          (ss.foldl (splitStep chunkSize overlap) st).currentChunk.data) := by
  intro ss
  induction ss with
  | nil =>
    intro st hcur _ _
    exact ⟨hcur, fun c hc => hc, fun u hu => Or.inr hu,
      fun s hs => absurd hs (List.not_mem_nil s)⟩
  | cons s rest ih =>
    intro st hcur hlast hts
    have hstep := splitStep_state_inv chunkSize overlap st s hcur hlast
      (hts s (List.mem_cons_self s rest))
    have hrest := ih (splitStep chunkSize overlap st s) hstep.1 hstep.2.1
      (fun x hx => hts x (List.mem_cons_of_mem s hx))
    refine ⟨hrest.1, ?_, ?_, ?_⟩
    · intro c hc
      exact hrest.2.1 c (hstep.2.2.2.2 c hc)
    · intro u hu
      rcases hstep.2.2.2.1 u hu with ⟨c, hc, hsub⟩ | hsub
      · exact Or.inl ⟨c, hrest.2.1 c hc, hsub⟩
      · exact hrest.2.2.1 u hsub
    · intro x hx
      rcases List.mem_cons.mp hx with he | hr
      · subst he
        exact hrest.2.2.1 _ hstep.2.2.1
      · exact hrest.2.2.2 x hr

/-- On the single empty sentence unit the loop emits nothing. -/
theorem splitRun_empty (chunkSize overlap : ℕ) :
    splitRun chunkSize overlap [""] = [] := by
  have h2 : splitStep chunkSize overlap ⟨[], "", []⟩ "" = ⟨[], "", [""]⟩ := by
    unfold splitStep
    rw [if_neg (fun hcc => absurd hcc.2 (by decide))]
    rfl
  unfold splitRun
  rw [show ([""] : List String).foldl (splitStep chunkSize overlap)
      ⟨[], "", []⟩ = splitStep chunkSize overlap ⟨[], "", []⟩ "" from rfl, h2]
  rw [if_neg (by decide)]

/-- C8: every sentence of the normalised input appears (trimmed) verbatim as
a substring of at least one emitted chunk, and empty (all-whitespace) input
yields an empty chunk sequence. -/
theorem splitText_coverage (text : String) (chunkSize overlap : ℕ) :
    (cleanText text = "" → V1.splitText text chunkSize overlap = []) ∧
    (cleanText text ≠ "" →
      ∀ s ∈ sentencesOf (cleanText text),
        ∃ c ∈ V1.splitText text chunkSize overlap,
          (trimStr s).data <:+: c.data) := by
  constructor
  · intro h
    unfold V1.splitText
    rw [h]
    exact splitRun_empty chunkSize overlap
  · intro hne s hs
    have hT : TrimmedS (cleanText text) := trimChars_idem _
    have hts := sentences_trim_ne (cleanText text) hT hne
    have hfold := splitFold_cov chunkSize overlap (sentencesOf (cleanText text))
      ⟨[], "", []⟩ (show TrimmedL [] from rfl)
      (fun x hx => absurd hx (List.not_mem_nil x)) hts
    unfold V1.splitText splitRun
    rcases hfold.2.2.2 s hs with ⟨c, hc, hsub⟩ | hsub
    · by_cases hfin : trimStr ((sentencesOf (cleanText text)).foldl
          (splitStep chunkSize overlap) ⟨[], "", []⟩).currentChunk ≠ ""
      · rw [if_pos hfin]
        exact ⟨c, List.mem_append_left _ hc, hsub⟩
      · rw [if_neg hfin]
        exact ⟨c, hc, hsub⟩
    · set stf := (sentencesOf (cleanText text)).foldl
        (splitStep chunkSize overlap) ⟨[], "", []⟩ with hstf
      have hsne : (trimStr s).data ≠ [] :=
        fun hn => (hts s hs) ((strEq_empty_iff _).mpr hn)
      have hcne : stf.currentChunk.data ≠ [] := by
        intro hn
        rw [hn] at hsub
        exact hsne (eq_nil_of_subChars_nil hsub)
      have htc : trimStr stf.currentChunk = stf.currentChunk :=
        trimStr_eq_self hfold.1
      have hfin : trimStr stf.currentChunk ≠ "" := by
        rw [htc]
        intro hn
        exact hcne ((strEq_empty_iff _).mp hn)
      rw [if_pos hfin]
      refine ⟨trimStr stf.currentChunk,
        List.mem_append_right _ (List.mem_singleton_self _), ?_⟩
      rw [htc]
      exact hsub

/-- Witness for C8: empty input, and full coverage on a concrete
two-sentence text chunked with overlap. -/
theorem splitText_coverage_witness :
    V1.splitText "" 1000 100 = [] ∧
    (∀ s ∈ sentencesOf (cleanText "Hi there. Bye now."),
      ∃ c ∈ V1.splitText "Hi there. Bye now." 12 1,
        (trimStr s).data <:+: c.data) :=
  ⟨(splitText_coverage "" 1000 100).1 rfl,
   (splitText_coverage "Hi there. Bye now." 12 1).2 (by decide)⟩
